import Mathlib

/-!
Verification development for the transfer-learning image-classification
notebook (`tutorial_pytorch_image_classification.ipynb`).

The notebook's core consists of:
* `FlowerDataset.__init__`: reads a labels CSV (`file_name, class_name`) and a
  split-tags CSV (`file_name, tag`), left-joins the tag column onto the labels
  table by `file_name` (pandas index alignment), and filters to the rows whose
  `tag` equals the requested `mode`.
* `FlowerDataset.__getitem__`: resolves the integer label either through
  `mapping[class_name.lower()]` (KeyError when absent) or `int(class_name)`.
* a training loop (forward, `zero_grad`, loss, backward, one `optimizer.step`
  per batch, `training_loss += loss.item()`, reported as
  `training_loss / dataset_size['train']`),
* a validation loop (forward, loss, arg-max comparison, accumulation, reported
  as `validation / dataset_size['valid']` and `100 * correct / total`),
* an inference loop that stores `pred_list[os.path.basename(im_name[0])] =
  cat_to_index[index.item()]` and writes the dict to a CSV with columns
  `(file_name, class_name)`.

Everything below is a shallow embedding of those code fragments: tables are
lists of records, pandas index alignment is lookup by key, the loops are folds
over batch lists, and the Python dict is an association list with
update-in-place / append-on-new-key semantics.
-/

/-! ## Label/Split index (`FlowerDataset.__init__`) -/

/-- One row of the annotations CSV: `file_name, class_name`. -/
structure LabelRecord where
  fileName : String
  className : String
deriving DecidableEq

/-- One row of the split-tags CSV: `file_name, tag`. -/
structure SplitRecord where
  fileName : String
  tag : String
deriving DecidableEq

/-- Pandas index alignment of the tag series onto a `file_name` key:
the tag of the (first) split row with that `file_name`, if any. -/
def lookupTag (splits : List SplitRecord) (f : String) : Option String :=
  (splits.find? (fun s => s.fileName == f)).map SplitRecord.tag

/-- One row of the joined table `my_data` after `my_data['tag'] = ...`:
a labels row with the aligned tag (`none` models pandas `NaN`). -/
structure JoinedRow where
  fileName : String
  className : String
  tag : Option String
deriving DecidableEq

/-- `my_data['tag'] = pd.read_csv(splits, index_col='file_name')`:
every labels row receives the tag aligned by its `file_name` index. -/
def joinTables (labels : List LabelRecord) (splits : List SplitRecord) :
    List JoinedRow :=
  labels.map (fun l => ⟨l.fileName, l.className, lookupTag splits l.fileName⟩)

/-- `my_data = my_data.loc[my_data['tag'] == mode]`: the index held in
`self.data` after `FlowerDataset.__init__` (row order of `labels` preserved;
a `NaN` tag never equals `mode`). -/
def buildIndex (labels : List LabelRecord) (splits : List SplitRecord)
    (mode : String) : List JoinedRow :=
  (joinTables labels splits).filter (fun r => r.tag == some mode)

/-! ## `__getitem__` label resolution -/

/-- Python `str.lower()` restricted to ASCII, which covers the class names
appearing in the notebook. -/
def pyLower (s : String) : String :=
  ⟨s.data.map Char.toLower⟩

/-- Dictionary lookup `mapping[key]` on an association list. -/
def mapLookup (m : List (String × Nat)) (k : String) : Option Nat :=
  (m.find? (fun p => p.1 == k)).map Prod.snd

/-- The kinds of failure `__getitem__`'s label resolution can raise:
`KeyError` from `self.mapping[...]`, `ValueError` from `int(...)`. -/
inductive GetError where
  | keyError
  | parseError
deriving DecidableEq

/-- Label resolution in `FlowerDataset.__getitem__`:
`int(self.mapping[class_name.lower()])` when a mapping was supplied,
else `int(class_name)`. -/
def resolveLabel (mapping : Option (List (String × Nat))) (className : String) :
    Except GetError Int :=
  match mapping with
  | some m =>
    match mapLookup m (pyLower className) with
    | some v => .ok (v : Int)
    | none => .error .keyError
  | none =>
    match className.toInt? with
    | some n => .ok n
    | none => .error .parseError

/-- `__getitem__(idx)`'s label: resolution applied to
`self.data.loc[idx, 'class_name']`. -/
def getitemLabel (data : List JoinedRow) (mapping : Option (List (String × Nat)))
    (i : Nat) (h : i < data.length) : Except GetError Int :=
  resolveLabel mapping (data.get ⟨i, h⟩).className

/-- The mapping from the scenario in the spec (lower-cased class names). -/
def flowerMapping : List (String × Nat) :=
  [("pink primrose", 0), ("hard-leaved pocket orchid", 1), ("canterbury bells", 2)]

/-! ## Python dict and `os.path.basename` -/

/-- Python dict assignment `d[k] = v`: update the value in place when the key
is present (keeping its position), append the new entry otherwise. -/
def dictInsert : List (String × String) → String → String → List (String × String)
  | [], k, v => [(k, v)]
  | p :: d, k, v => if p.1 == k then (k, v) :: d else p :: dictInsert d k v

/-- Python dict read `d[k]` (as an option: `none` models KeyError). -/
def dictLookup (d : List (String × String)) (k : String) : Option String :=
  (d.find? (fun p => p.1 == k)).map Prod.snd

/-- `os.path.basename` on a POSIX path: the suffix after the last `/`. -/
def basename (s : String) : String :=
  ⟨s.data.foldl (fun acc c => if c = '/' then [] else acc ++ [c]) []⟩

/-! ## `torch.max(outputs, 1)`: the arg-max class id per sample -/

/-- Scan for the index of the first maximal score, carrying the running best
index and value. -/
def pyArgmaxAux : List ℚ → Nat → Nat → ℚ → Nat
  | [], _, best, _ => best
  | x :: xs, i, best, bestV =>
    if bestV < x then pyArgmaxAux xs (i + 1) i x
    else pyArgmaxAux xs (i + 1) best bestV

/-- Index of the first maximal element of a score vector (`torch.max(_, 1)`'s
returned index for one sample; 0 on an empty vector). -/
def pyArgmax : List ℚ → Nat
  | [] => 0
  | x :: xs => pyArgmaxAux xs 1 0 x

/-! ## Training loop (notebook training cell)

The model's parameters are split into the frozen pretrained `backbone` and the
replaced final layer `head` (`model.fc`).  The optimizer is constructed as
`optim.Adam(model.fc.parameters())`, so its `step` reads and writes only the
head parameters; this is embedded as `applyStep : Hd → G → Hd`.  Gradients
live in `G` with accumulation `gadd` and the cleared state `gzero`
(`optimizer.zero_grad()`).  `gradOf bk hd b` is the gradient of the batch
loss produced by `loss.backward()`.  Losses are per-batch mean values
(`nn.NLLLoss` with default mean reduction), abstracted as `crit`. -/

/-- The accumulators of one training run: parameters, current gradients, the
running `training_loss`, and (for auditing the loop) the number of
`optimizer.step()` calls and the gradients each step consumed. -/
structure TrainState (Bk Hd G : Type) where
  backbone : Bk
  head : Hd
  grads : G
  trainingLoss : ℚ
  stepsDone : Nat
  stepGrads : List G

/-- The per-batch body of the training loop:
`outputs = model(inputs)`; `optimizer.zero_grad()`; `loss = criterion(...)`;
`loss.backward()` (accumulates onto the zeroed gradients);
`optimizer.step()` (updates only the head parameters);
`training_loss += loss.item()`. -/
def trainBatchStep {Bk Hd G B O : Type} (fwd : Bk → Hd → B → O)
    (crit : O → B → ℚ) (gradOf : Bk → Hd → B → G) (gadd : G → G → G)
    (gzero : G) (applyStep : Hd → G → Hd) (s : TrainState Bk Hd G) (b : B) :
    TrainState Bk Hd G :=
  let outputs := fwd s.backbone s.head b
  let loss := crit outputs b
  let gradsAfterBackward := gadd gzero (gradOf s.backbone s.head b)
  { backbone := s.backbone
    head := applyStep s.head gradsAfterBackward
    grads := gradsAfterBackward
    trainingLoss := s.trainingLoss + loss
    stepsDone := s.stepsDone + 1
    stepGrads := s.stepGrads ++ [gradsAfterBackward] }

/-- One epoch of the training loop: the per-batch body folded over the
training batches in iterator order. -/
def trainEpochLoop {Bk Hd G B O : Type} (fwd : Bk → Hd → B → O)
    (crit : O → B → ℚ) (gradOf : Bk → Hd → B → G) (gadd : G → G → G)
    (gzero : G) (applyStep : Hd → G → Hd) (s : TrainState Bk Hd G)
    (batches : List B) : TrainState Bk Hd G :=
  batches.foldl (trainBatchStep fwd crit gradOf gadd gzero applyStep) s

/-- `epoch_loss = training_loss / dataset_size['train']`. -/
def epochLoss {Bk Hd G : Type} (s : TrainState Bk Hd G) (datasetSize : Nat) : ℚ :=
  s.trainingLoss / (datasetSize : ℚ)

/-- The outer `for epoch in range(num_epochs)` loop.  The validation pass that
follows each training epoch reads the parameters but never writes them (it
runs under `torch.no_grad()` and calls no optimizer), so only the training
fold threads the state. -/
def runEpochs {Bk Hd G B O : Type} (fwd : Bk → Hd → B → O)
    (crit : O → B → ℚ) (gradOf : Bk → Hd → B → G) (gadd : G → G → G)
    (gzero : G) (applyStep : Hd → G → Hd) (trainBatches : List B) :
    Nat → TrainState Bk Hd G → TrainState Bk Hd G
  | 0, s => s
  | n + 1, s =>
    runEpochs fwd crit gradOf gadd gzero applyStep trainBatches n
      (trainEpochLoop fwd crit gradOf gadd gzero applyStep s trainBatches)

/-- The sequence of per-batch mean loss values an epoch computes, at the
parameters current when each batch is processed. -/
def epochBatchLosses {Bk Hd G B O : Type} (fwd : Bk → Hd → B → O)
    (crit : O → B → ℚ) (gradOf : Bk → Hd → B → G) (gadd : G → G → G)
    (gzero : G) (applyStep : Hd → G → Hd) (bk : Bk) :
    Hd → List B → List ℚ
  | _, [] => []
  | hd, b :: bs =>
    crit (fwd bk hd b) b ::
      epochBatchLosses fwd crit gradOf gadd gzero applyStep bk
        (applyStep hd (gadd gzero (gradOf bk hd b))) bs

/-- The gradient of each single batch at the parameters current when that
batch is processed: what every optimizer step should consume when gradients
are zeroed before each backward pass. -/
def epochStepGrads {Bk Hd G B : Type} (gradOf : Bk → Hd → B → G)
    (applyStep : Hd → G → Hd) (bk : Bk) : Hd → List B → List G
  | _, [] => []
  | hd, b :: bs =>
    gradOf bk hd b ::
      epochStepGrads gradOf applyStep bk (applyStep hd (gradOf bk hd b)) bs

/-! ## Validation loop (notebook validation cell) -/

/-- One validation sample: an input and its ground-truth class id. -/
structure ValSample (I : Type) where
  input : I
  label : Nat

/-- The validation accumulators: `total`, `correct_preds`, `validation`. -/
structure ValState where
  total : Nat
  correct : Nat
  validation : ℚ

/-- The per-batch body of the validation loop: forward pass, batch loss,
`_, index = torch.max(outputs, 1)`, `total += labels.size(0)`,
`correct_preds += (index == labels).sum().item()`,
`validation += val_loss.item()`. -/
def valBatchStep {I : Type} (score : I → List ℚ)
    (crit : List (List ℚ) → List Nat → ℚ) (s : ValState)
    (batch : List (ValSample I)) : ValState :=
  let outputs := batch.map (fun smp => score smp.input)
  let labels := batch.map ValSample.label
  let vloss := crit outputs labels
  let idx := outputs.map pyArgmax
  { total := s.total + labels.length
    correct := s.correct + ((idx.zip labels).countP (fun p => p.1 == p.2))
    validation := s.validation + vloss }

/-- The validation pass over all validation batches, starting from zeroed
accumulators. -/
def valEpoch {I : Type} (score : I → List ℚ)
    (crit : List (List ℚ) → List Nat → ℚ)
    (batches : List (List (ValSample I))) : ValState :=
  batches.foldl (valBatchStep score crit) ⟨0, 0, 0⟩

/-- `validation / dataset_size['valid']`, the printed validation loss. -/
def reportedValLoss {I : Type} (score : I → List ℚ)
    (crit : List (List ℚ) → List Nat → ℚ)
    (batches : List (List (ValSample I))) (datasetSize : Nat) : ℚ :=
  (valEpoch score crit batches).validation / (datasetSize : ℚ)

/-- `val_acc = 100 * (correct_preds / total)`, the printed accuracy. -/
def reportedValAcc {I : Type} (score : I → List ℚ)
    (crit : List (List ℚ) → List Nat → ℚ)
    (batches : List (List (ValSample I))) : ℚ :=
  100 * ((valEpoch score crit batches).correct : ℚ) /
    ((valEpoch score crit batches).total : ℚ)

/-! ## Inference loop (notebook test cell)

The test loader uses batch size one, so the loop processes one sample at a
time (`im_name[0]` is the single file name of the batch). -/

/-- One test sample: input, the file name from the test index, and the
ground-truth class id carried in the batch. -/
structure TestSample (I : Type) where
  input : I
  fileName : String
  label : Nat

/-- The inference accumulators: `total`, `correct_preds`, and the `pred_list`
dict in insertion order. -/
structure InferState where
  total : Nat
  correct : Nat
  predList : List (String × String)

/-- The per-sample body of the inference loop: forward pass,
`_, index = torch.max(pred, 1)`, `total += label.size(0)`,
`correct_preds += (index == label).sum().item()`,
`pred_list[os.path.basename(im_name[0])] = cat_to_index[index.item()]`. -/
def inferStep {I : Type} (score : I → List ℚ) (cat : Nat → String)
    (s : InferState) (smp : TestSample I) : InferState :=
  let predScores := score smp.input
  let idx := pyArgmax predScores
  { total := s.total + 1
    correct := s.correct + (if idx == smp.label then 1 else 0)
    predList := dictInsert s.predList (basename smp.fileName) (cat idx) }

/-- The full inference pass over the test samples in loader order. -/
def runInfer {I : Type} (score : I → List ℚ) (cat : Nat → String)
    (samples : List (TestSample I)) : InferState :=
  samples.foldl (inferStep score cat) ⟨0, 0, []⟩

/-- The data rows of `model_predictions.csv`:
`pd.DataFrame(pred_list.items(), columns=['file_name', 'class_name'])`
serializes the dict entries in insertion order. -/
def predictionsCSV {I : Type} (score : I → List ℚ) (cat : Nat → String)
    (samples : List (TestSample I)) : List (String × String) :=
  (runInfer score cat samples).predList

/-- The notebook's `cat_to_index` dict on the class ids 0–2 that the
three-output head can produce (it is the inverse of the class mapping). -/
def cat_to_index : Nat → String
  | 0 => "Pink Primrose"
  | 1 => "Hard-leaved Pocket Orchid"
  | _ => "Canterbury Bells"

/-! ## Concrete tables and batches used by the witnesses -/

/-- A small annotations table. -/
def exLabels : List LabelRecord :=
  [⟨"1.jpg", "Pink Primrose"⟩, ⟨"2.jpg", "Canterbury Bells"⟩,
   ⟨"3.jpg", "Pink Primrose"⟩]

/-- A small split-tags table; `4.jpg` has no annotations entry. -/
def exSplits : List SplitRecord :=
  [⟨"1.jpg", "train"⟩, ⟨"2.jpg", "valid"⟩, ⟨"3.jpg", "train"⟩,
   ⟨"4.jpg", "train"⟩]

/-! ## Helper lemmas about the join -/

/-- A member of the built index is the joined image of a labels row whose
aligned tag is the requested mode. -/
theorem mem_buildIndex {labels : List LabelRecord} {splits : List SplitRecord}
    {mode : String} {r : JoinedRow} (hr : r ∈ buildIndex labels splits mode) :
    ∃ l ∈ labels, r = ⟨l.fileName, l.className, lookupTag splits l.fileName⟩ ∧
      lookupTag splits l.fileName = some mode := by
  unfold buildIndex joinTables at hr
  rcases List.mem_filter.mp hr with ⟨hmem, htag⟩
  rcases List.mem_map.mp hmem with ⟨l, hl, himg⟩
  refine ⟨l, hl, himg.symm, ?_⟩
  have : r.tag = some mode := by
    simpa using htag
  rw [← himg] at this
  simpa using this

/-! ## Claim C5: labels rows without a split row are excluded from every view -/

/-- Claim C5: a labels-table row whose `file_name` has no matching row in the
splits table receives an undefined (`none`/NaN) tag from the alignment, and is
excluded from the index built for every requested split value. -/
theorem label_without_split_excluded (labels : List LabelRecord)
    (splits : List SplitRecord) (l : LabelRecord) (_hl : l ∈ labels)
    (hnone : lookupTag splits l.fileName = none) :
    ∀ mode : String, ∀ r ∈ buildIndex labels splits mode,
      r.fileName ≠ l.fileName := by
  intro mode r hr
  rcases mem_buildIndex hr with ⟨l', _, himg, htag⟩
  intro hname
  rw [himg] at hname
  simp only at hname
  rw [hname] at htag
  rw [hnone] at htag
  exact Option.noConfusion htag

/-- Witness for C5: a concrete labels row `extra.jpg` with no splits entry is
excluded from the index built for any mode. -/
theorem label_without_split_excluded_witness :
    (⟨"extra.jpg", "Canterbury Bells"⟩ : LabelRecord) ∈
        [(⟨"a.jpg", "Pink Primrose"⟩ : LabelRecord), ⟨"extra.jpg", "Canterbury Bells"⟩] ∧
      lookupTag [⟨"a.jpg", "train"⟩] "extra.jpg" = none ∧
      ∀ mode : String, ∀ r ∈ buildIndex
          [(⟨"a.jpg", "Pink Primrose"⟩ : LabelRecord), ⟨"extra.jpg", "Canterbury Bells"⟩]
          [⟨"a.jpg", "train"⟩] mode, r.fileName ≠ "extra.jpg" :=
  ⟨by decide, by decide,
    label_without_split_excluded
      [⟨"a.jpg", "Pink Primrose"⟩, ⟨"extra.jpg", "Canterbury Bells"⟩]
      [⟨"a.jpg", "train"⟩] ⟨"extra.jpg", "Canterbury Bells"⟩
      (by decide) (by decide)⟩

/-! ## Claim C2: mapping lookup in `__getitem__` -/

/-- Claim C2: for every in-range index, when a class mapping is supplied,
`__getitem__` resolves the label as `mapping[class_name.lower()]`, failing with
a KeyError-kind error exactly when the lower-cased class name is absent from
the mapping; concretely, with the three-flower mapping the class name
`"Pink Primrose"` resolves to label 0. -/
theorem getitem_mapping_lookup (data : List JoinedRow)
    (m : List (String × Nat)) (i : Nat) (h : i < data.length) :
    (getitemLabel data (some m) i h = .error .keyError ↔
      mapLookup m (pyLower (data.get ⟨i, h⟩).className) = none) ∧
    (∀ v, mapLookup m (pyLower (data.get ⟨i, h⟩).className) = some v →
      getitemLabel data (some m) i h = .ok (v : Int)) ∧
    resolveLabel (some flowerMapping) "Pink Primrose" = .ok 0 := by
  refine ⟨?_, ?_, rfl⟩
  · have key : ∀ o : Option Nat,
        (match o with
          | some v => (Except.ok (v : Int) : Except GetError Int)
          | none => Except.error GetError.keyError) =
          Except.error GetError.keyError ↔ o = none := by
      intro o
      cases o <;> simp
    exact key (mapLookup m (pyLower (data.get ⟨i, h⟩).className))
  · intro v hv
    have hu : getitemLabel data (some m) i h =
        match mapLookup m (pyLower (data.get ⟨i, h⟩).className) with
        | some v => (Except.ok (v : Int) : Except GetError Int)
        | none => Except.error GetError.keyError := rfl
    rw [hu, hv]

/-- Witness for C2: on a concrete one-row index, the mapping lookup for
`"Hard-Leaved Pocket Orchid"` resolves to label 1 and does not raise. -/
theorem getitem_mapping_lookup_witness :
    (0 : Nat) < ([(⟨"b.jpg", "Hard-Leaved Pocket Orchid", some "train"⟩ : JoinedRow)]).length ∧
      getitemLabel [⟨"b.jpg", "Hard-Leaved Pocket Orchid", some "train"⟩]
          (some flowerMapping) 0 (by decide) = .ok 1 ∧
      resolveLabel (some flowerMapping) "Pink Primrose" = .ok 0 := by
  have h := getitem_mapping_lookup
    [⟨"b.jpg", "Hard-Leaved Pocket Orchid", some "train"⟩] flowerMapping 0 (by decide)
  exact ⟨by decide, h.2.1 1 (by decide), h.2.2⟩

/-! ## Claim C1: the filtered index, row by row and by count -/

/-- The built index is the image of the labels rows whose aligned tag is the
requested mode (filtering a mapped list is mapping the filtered list). -/
theorem buildIndex_eq (labels : List LabelRecord) (splits : List SplitRecord)
    (mode : String) :
    buildIndex labels splits mode =
      (labels.filter (fun l => lookupTag splits l.fileName == some mode)).map
        (fun l => (⟨l.fileName, l.className, lookupTag splits l.fileName⟩ : JoinedRow)) := by
  unfold buildIndex joinTables
  rw [List.filter_map]
  rfl

/-- With no duplicate `file_name` keys, alignment at a split row's own key
returns that row's tag. -/
theorem lookupTag_self {splits : List SplitRecord}
    (hS : (splits.map SplitRecord.fileName).Nodup) {s : SplitRecord}
    (hs : s ∈ splits) : lookupTag splits s.fileName = some s.tag := by
  induction splits with
  | nil => cases hs
  | cons a as ih =>
    rw [List.map_cons, List.nodup_cons] at hS
    rcases List.mem_cons.mp hs with h | h
    · have hf : List.find? (fun x => x.fileName == s.fileName) (a :: as) = some a :=
        List.find?_cons_of_pos _ (by simp [h])
      unfold lookupTag
      rw [hf, h]
      rfl
    · have hne : ¬ ((fun x => x.fileName == s.fileName) a = true) := by
        simp only [beq_iff_eq]
        intro he
        exact hS.1 (he ▸ List.mem_map_of_mem SplitRecord.fileName h)
      have hf : List.find? (fun x => x.fileName == s.fileName) (a :: as) =
          List.find? (fun x => x.fileName == s.fileName) as :=
        List.find?_cons_of_neg _ hne
      unfold lookupTag
      rw [hf]
      exact ih hS.2 h

/-- A successful alignment comes from an actual split row with that key and
tag. -/
theorem lookupTag_some {splits : List SplitRecord} {f t : String}
    (h : lookupTag splits f = some t) :
    ∃ s ∈ splits, s.fileName = f ∧ s.tag = t := by
  unfold lookupTag at h
  cases hf : splits.find? (fun s => s.fileName == f) with
  | none => rw [hf] at h; cases h
  | some s =>
    rw [hf] at h
    have hp := List.find?_some hf
    have hmem := List.mem_of_find?_eq_some hf
    exact ⟨s, hmem, by simpa using hp, by simpa using h⟩

/-- Two duplicate-free lists with the same members have the same length. -/
theorem nodup_length_eq {α : Type} [DecidableEq α] {l1 l2 : List α}
    (h1 : l1.Nodup) (h2 : l2.Nodup) (hm : ∀ a, a ∈ l1 ↔ a ∈ l2) :
    l1.length = l2.length := by
  have hfs : l1.toFinset = l2.toFinset := by
    ext a
    simp only [List.mem_toFinset]
    exact hm a
  calc l1.length = l1.toFinset.card := (List.toFinset_card_of_nodup h1).symm
    _ = l2.toFinset.card := by rw [hfs]
    _ = l2.length := List.toFinset_card_of_nodup h2

/-- Claim C1: for valid (duplicate-free-keyed) labels and splits tables and
every requested split, the index built by `FlowerDataset.__init__` contains
only rows whose split tag equals the requested split, and its row count equals
the number of split-table rows carrying that tag that also have a labels-table
entry for the same `file_name`. -/
theorem index_rows_and_count (labels : List LabelRecord)
    (splits : List SplitRecord) (mode : String)
    (hL : (labels.map LabelRecord.fileName).Nodup)
    (hS : (splits.map SplitRecord.fileName).Nodup) :
    (∀ r ∈ buildIndex labels splits mode, r.tag = some mode) ∧
    (buildIndex labels splits mode).length =
      (splits.filter (fun s => s.tag == mode &&
        labels.any (fun l => l.fileName == s.fileName))).length := by
  constructor
  · intro r hr
    rcases mem_buildIndex hr with ⟨l, _, himg, htag⟩
    rw [himg]
    exact htag
  · have hlen1 : (buildIndex labels splits mode).length =
        ((labels.filter
          (fun l => lookupTag splits l.fileName == some mode)).map
            LabelRecord.fileName).length := by
      rw [buildIndex_eq]
      simp [List.length_map]
    have hlen2 : (splits.filter (fun s => s.tag == mode &&
        labels.any (fun l => l.fileName == s.fileName))).length =
        ((splits.filter (fun s => s.tag == mode &&
          labels.any (fun l => l.fileName == s.fileName))).map
            SplitRecord.fileName).length := by
      simp [List.length_map]
    rw [hlen1, hlen2]
    apply nodup_length_eq
    · exact List.Nodup.sublist
        (List.Sublist.map LabelRecord.fileName (List.filter_sublist labels)) hL
    · exact List.Nodup.sublist
        (List.Sublist.map SplitRecord.fileName (List.filter_sublist splits)) hS
    · intro f
      constructor
      · intro hf
        rcases List.mem_map.mp hf with ⟨l, hlmem, hlf⟩
        rcases List.mem_filter.mp hlmem with ⟨hl, hql⟩
        have htag : lookupTag splits f = some mode := by
          rw [← hlf]
          simpa using hql
        rcases lookupTag_some htag with ⟨s, hsmem, hsf, hst⟩
        apply List.mem_map.mpr
        refine ⟨s, List.mem_filter.mpr ⟨hsmem, ?_⟩, hsf⟩
        simp only [Bool.and_eq_true, beq_iff_eq, List.any_eq_true]
        exact ⟨hst, l, hl, by simp [hlf, hsf]⟩
      · intro hf
        rcases List.mem_map.mp hf with ⟨s, hsmem, hsf⟩
        rcases List.mem_filter.mp hsmem with ⟨hs, hrs⟩
        simp only [Bool.and_eq_true, beq_iff_eq, List.any_eq_true] at hrs
        rcases hrs with ⟨hst, l, hl, hlf⟩
        have hlf2 : l.fileName = s.fileName := by simpa using hlf
        apply List.mem_map.mpr
        refine ⟨l, List.mem_filter.mpr ⟨hl, ?_⟩, hlf2.trans hsf⟩
        have hval : lookupTag splits l.fileName = some mode := by
          rw [hlf2, lookupTag_self hS hs, hst]
        simpa using hval

/-- Witness for C1: the concrete tables have duplicate-free keys, the rows of
the train index all carry the train tag, and the count matches the two split
rows tagged train that have annotations entries. -/
theorem index_rows_and_count_witness :
    (exLabels.map LabelRecord.fileName).Nodup ∧
    (exSplits.map SplitRecord.fileName).Nodup ∧
    ((∀ r ∈ buildIndex exLabels exSplits "train", r.tag = some "train") ∧
      (buildIndex exLabels exSplits "train").length =
        (exSplits.filter (fun s => s.tag == "train" &&
          exLabels.any (fun l => l.fileName == s.fileName))).length) :=
  ⟨by decide, by decide,
    index_rows_and_count exLabels exSplits "train" (by decide) (by decide)⟩

/-! ## Training-loop lemmas -/

/-- The running `training_loss` of an epoch is the start value plus the sum of
the per-batch mean loss values the epoch computes. -/
theorem trainEpochLoop_trainingLoss {Bk Hd G B O : Type} (fwd : Bk → Hd → B → O)
    (crit : O → B → ℚ) (gradOf : Bk → Hd → B → G) (gadd : G → G → G)
    (gzero : G) (applyStep : Hd → G → Hd) :
    ∀ (batches : List B) (s : TrainState Bk Hd G),
      (trainEpochLoop fwd crit gradOf gadd gzero applyStep s batches).trainingLoss =
        s.trainingLoss +
          (epochBatchLosses fwd crit gradOf gadd gzero applyStep
            s.backbone s.head batches).sum := by
  intro batches
  induction batches with
  | nil =>
    intro s
    simp [trainEpochLoop, epochBatchLosses]
  | cons b bs ih =>
    intro s
    have hstep : trainEpochLoop fwd crit gradOf gadd gzero applyStep s (b :: bs) =
        trainEpochLoop fwd crit gradOf gadd gzero applyStep
          (trainBatchStep fwd crit gradOf gadd gzero applyStep s b) bs := rfl
    rw [hstep, ih]
    simp [trainBatchStep, epochBatchLosses]
    ring

/-- An epoch never writes the backbone parameters. -/
theorem trainEpochLoop_backbone {Bk Hd G B O : Type} (fwd : Bk → Hd → B → O)
    (crit : O → B → ℚ) (gradOf : Bk → Hd → B → G) (gadd : G → G → G)
    (gzero : G) (applyStep : Hd → G → Hd) :
    ∀ (batches : List B) (s : TrainState Bk Hd G),
      (trainEpochLoop fwd crit gradOf gadd gzero applyStep s batches).backbone =
        s.backbone := by
  intro batches
  induction batches with
  | nil => intro s; rfl
  | cons b bs ih =>
    intro s
    have hstep : trainEpochLoop fwd crit gradOf gadd gzero applyStep s (b :: bs) =
        trainEpochLoop fwd crit gradOf gadd gzero applyStep
          (trainBatchStep fwd crit gradOf gadd gzero applyStep s b) bs := rfl
    rw [hstep, ih]
    rfl

/-! ## Claim C3: the reported epoch training loss -/

/-- Claim C3: the reported training loss of an epoch equals the sum over the
training batches of the per-batch mean loss values, divided by the total
number of training samples (the batch sizes sum to `dataset_size['train']`),
not by the number of batches and not re-weighted by batch size. -/
theorem epoch_training_loss_formula {Bk Hd G B O : Type} (fwd : Bk → Hd → B → O)
    (crit : O → B → ℚ) (gradOf : Bk → Hd → B → G) (gadd : G → G → G)
    (gzero : G) (applyStep : Hd → G → Hd) (s0 : TrainState Bk Hd G)
    (batches : List B) (bsize : B → Nat) (nTrain : Nat)
    (hcover : (batches.map bsize).sum = nTrain)
    (hinit : s0.trainingLoss = 0) :
    epochLoss (trainEpochLoop fwd crit gradOf gadd gzero applyStep s0 batches)
        nTrain =
      (epochBatchLosses fwd crit gradOf gadd gzero applyStep
          s0.backbone s0.head batches).sum /
        (((batches.map bsize).sum : Nat) : ℚ) := by
  rw [epochLoss, trainEpochLoop_trainingLoss, hinit, hcover]
  rw [zero_add]

/-- Witness for C3: a concrete two-batch epoch (sizes 2 and 1, three samples)
whose reported loss is the sum of the two batch losses over three. -/
theorem epoch_training_loss_formula_witness :
    (([[ (1 : ℚ), 2 ], [ 4 ]].map List.length).sum = 3) ∧
    ((⟨0, 0, 0, 0, 0, []⟩ : TrainState ℚ ℚ ℚ).trainingLoss = 0) ∧
    epochLoss
        (trainEpochLoop (fun _ _ b => b) (fun o _ => o.sum)
          (fun _ _ b => (b.length : ℚ)) (fun x y => x + y) 0
          (fun h g => h - g) ⟨0, 0, 0, 0, 0, []⟩ [[(1 : ℚ), 2], [4]]) 3 =
      (epochBatchLosses (fun _ _ b => b) (fun o _ => o.sum)
          (fun _ _ b => (b.length : ℚ)) (fun x y => x + y) 0
          (fun h g => h - g) (0 : ℚ) (0 : ℚ) [[(1 : ℚ), 2], [4]]).sum /
        ((([[(1 : ℚ), 2], [4]].map List.length).sum : Nat) : ℚ) :=
  ⟨by decide, rfl,
    epoch_training_loss_formula (fun _ _ b => b) (fun o _ => o.sum)
      (fun _ _ b => (b.length : ℚ)) (fun x y => x + y) 0 (fun h g => h - g)
      ⟨0, 0, 0, 0, 0, []⟩ [[(1 : ℚ), 2], [4]] List.length 3 (by decide) rfl⟩

/-! ## Claim C6: training mutates only the head parameters -/

/-- Claim C6: over any number of epochs, the training loop mutates only the
head (`model.fc`) parameters: the optimizer is built from
`model.fc.parameters()` alone and the validation pass after each epoch never
writes parameters, so every backbone parameter has the same value after
training as before it. -/
theorem training_preserves_backbone {Bk Hd G B O : Type} (fwd : Bk → Hd → B → O)
    (crit : O → B → ℚ) (gradOf : Bk → Hd → B → G) (gadd : G → G → G)
    (gzero : G) (applyStep : Hd → G → Hd) (trainBatches : List B) :
    ∀ (numEpochs : Nat) (s : TrainState Bk Hd G),
      (runEpochs fwd crit gradOf gadd gzero applyStep trainBatches
        numEpochs s).backbone = s.backbone := by
  intro numEpochs
  induction numEpochs with
  | zero => intro s; rfl
  | succ n ih =>
    intro s
    have hstep : runEpochs fwd crit gradOf gadd gzero applyStep trainBatches
        (n + 1) s =
        runEpochs fwd crit gradOf gadd gzero applyStep trainBatches n
          (trainEpochLoop fwd crit gradOf gadd gzero applyStep s trainBatches) :=
      rfl
    rw [hstep, ih, trainEpochLoop_backbone]

/-! ## Claim C7: one optimizer step per batch, on that batch's gradient -/

/-- The step counter and per-step gradient log of an epoch, assuming clearing
then accumulating one gradient yields that gradient. -/
theorem trainEpochLoop_stepGrads {Bk Hd G B O : Type} (fwd : Bk → Hd → B → O)
    (crit : O → B → ℚ) (gradOf : Bk → Hd → B → G) (gadd : G → G → G)
    (gzero : G) (applyStep : Hd → G → Hd)
    (h0 : ∀ g, gadd gzero g = g) :
    ∀ (batches : List B) (s : TrainState Bk Hd G),
      (trainEpochLoop fwd crit gradOf gadd gzero applyStep s batches).stepsDone =
        s.stepsDone + batches.length ∧
      (trainEpochLoop fwd crit gradOf gadd gzero applyStep s batches).stepGrads =
        s.stepGrads ++
          epochStepGrads gradOf applyStep s.backbone s.head batches := by
  intro batches
  induction batches with
  | nil =>
    intro s
    exact ⟨rfl, by simp [trainEpochLoop, epochStepGrads]⟩
  | cons b bs ih =>
    intro s
    have hstep : trainEpochLoop fwd crit gradOf gadd gzero applyStep s (b :: bs) =
        trainEpochLoop fwd crit gradOf gadd gzero applyStep
          (trainBatchStep fwd crit gradOf gadd gzero applyStep s b) bs := rfl
    constructor
    · rw [hstep, (ih _).1]
      simp [trainBatchStep]
      omega
    · rw [hstep, (ih _).2]
      simp [trainBatchStep, epochStepGrads, h0]

/-- Claim C7: the training loop takes the batches in iterator order and, for
each, performs the forward pass, loss, gradient zeroing, backpropagation,
exactly one optimizer step, and loss accumulation, so that over an epoch the
number of optimizer steps equals the number of batches and the gradient
consumed by each step is exactly the gradient of that one batch (gradients
are cleared before each backward pass, so nothing leaks across batches). -/
theorem one_step_per_batch_own_gradient {Bk Hd G B O : Type}
    (fwd : Bk → Hd → B → O) (crit : O → B → ℚ) (gradOf : Bk → Hd → B → G)
    (gadd : G → G → G) (gzero : G) (applyStep : Hd → G → Hd)
    (s0 : TrainState Bk Hd G) (batches : List B)
    (h0 : ∀ g, gadd gzero g = g) (hsteps : s0.stepsDone = 0)
    (hgrads : s0.stepGrads = []) :
    (trainEpochLoop fwd crit gradOf gadd gzero applyStep s0 batches).stepsDone =
      batches.length ∧
    (trainEpochLoop fwd crit gradOf gadd gzero applyStep s0 batches).stepGrads =
      epochStepGrads gradOf applyStep s0.backbone s0.head batches := by
  have h := trainEpochLoop_stepGrads fwd crit gradOf gadd gzero applyStep h0
    batches s0
  rw [hsteps, hgrads] at h
  simpa using h

/-- Witness for C7: a concrete three-batch epoch performs exactly three
optimizer steps, each on the corresponding batch's own gradient. -/
theorem one_step_per_batch_own_gradient_witness :
    (∀ g : ℚ, 0 + g = g) ∧
    ((⟨0, 0, 0, 0, 0, []⟩ : TrainState ℚ ℚ ℚ).stepsDone = 0) ∧
    ((⟨0, 0, 0, 0, 0, []⟩ : TrainState ℚ ℚ ℚ).stepGrads = []) ∧
    ((trainEpochLoop (fun _ _ b => b) (fun o _ => o.sum)
        (fun _ hd b => hd + b.sum) (fun x y => x + y) 0 (fun h g => h - g)
        ⟨0, 0, 0, 0, 0, []⟩ [[(1 : ℚ)], [2], [3]]).stepsDone = 3 ∧
      (trainEpochLoop (fun _ _ b => b) (fun o _ => o.sum)
        (fun _ hd b => hd + b.sum) (fun x y => x + y) 0 (fun h g => h - g)
        ⟨0, 0, 0, 0, 0, []⟩ [[(1 : ℚ)], [2], [3]]).stepGrads =
        epochStepGrads (fun _ hd b => hd + b.sum) (fun h g => h - g)
          (0 : ℚ) (0 : ℚ) [[(1 : ℚ)], [2], [3]]) :=
  ⟨fun g => zero_add g, rfl, rfl,
    one_step_per_batch_own_gradient (fun _ _ b => b) (fun o _ => o.sum)
      (fun _ hd b => hd + b.sum) (fun x y => x + y) 0 (fun h g => h - g)
      ⟨0, 0, 0, 0, 0, []⟩ [[(1 : ℚ)], [2], [3]]
      (fun g => zero_add g) rfl rfl⟩

/-! ## Validation-loop lemmas -/

/-- Counting the agreements between the arg-maxes of mapped score vectors and
mapped labels zip-wise is counting the agreements pointwise. -/
theorem zip_map_countP_eq {I : Type} (f : I → List ℚ) (g : I → Nat) :
    ∀ l : List I,
      ((((l.map f).map pyArgmax).zip (l.map g)).countP (fun p => p.1 == p.2)) =
        l.countP (fun x => pyArgmax (f x) == g x) := by
  intro l
  induction l with
  | nil => rfl
  | cons a l ih =>
    simp only [List.map_cons, List.zip_cons_cons, List.countP_cons, ih]

/-- The three validation accumulators after folding a batch list, from any
start state: sample count, arg-max-correct count, and summed batch losses. -/
theorem valFold_fields {I : Type} (score : I → List ℚ)
    (crit : List (List ℚ) → List Nat → ℚ) :
    ∀ (batches : List (List (ValSample I))) (s : ValState),
      (batches.foldl (valBatchStep score crit) s).total =
        s.total + (batches.map List.length).sum ∧
      (batches.foldl (valBatchStep score crit) s).correct =
        s.correct + (batches.map (fun b =>
          b.countP (fun smp => pyArgmax (score smp.input) == smp.label))).sum ∧
      (batches.foldl (valBatchStep score crit) s).validation =
        s.validation + (batches.map (fun b =>
          crit (b.map (fun smp => score smp.input))
            (b.map ValSample.label))).sum := by
  intro batches
  induction batches with
  | nil =>
    intro s
    refine ⟨by simp, by simp, by simp⟩
  | cons b bs ih =>
    intro s
    have hstep : (b :: bs).foldl (valBatchStep score crit) s =
        bs.foldl (valBatchStep score crit) (valBatchStep score crit s b) := rfl
    refine ⟨?_, ?_, ?_⟩
    · rw [hstep, (ih _).1]
      simp [valBatchStep]
      omega
    · rw [hstep, (ih _).2.1]
      simp only [valBatchStep]
      rw [zip_map_countP_eq (fun smp => score smp.input) ValSample.label b]
      simp only [List.map_cons, List.sum_cons]
      omega
    · rw [hstep, (ih _).2.2]
      simp [valBatchStep]
      ring

/-! ## Claim C8: the reported validation loss and accuracy -/

/-- Claim C8: the reported validation loss equals the accumulated per-batch
validation loss divided by the number of validation samples (the batch sizes
sum to `dataset_size['valid']`), and the reported validation accuracy equals
100 times the count of samples whose arg-max predicted class equals their
label, divided by the total count of validation samples. -/
theorem epoch_validation_metrics {I : Type} (score : I → List ℚ)
    (crit : List (List ℚ) → List Nat → ℚ)
    (batches : List (List (ValSample I))) (nValid : Nat)
    (hcover : (batches.map List.length).sum = nValid) :
    reportedValLoss score crit batches nValid =
      (batches.map (fun b => crit (b.map (fun smp => score smp.input))
        (b.map ValSample.label))).sum / (nValid : ℚ) ∧
    reportedValAcc score crit batches =
      100 * ((batches.flatten.countP
          (fun smp => pyArgmax (score smp.input) == smp.label) : Nat) : ℚ) /
        ((nValid : Nat) : ℚ) := by
  have h := valFold_fields score crit batches ⟨0, 0, 0⟩
  constructor
  · rw [reportedValLoss]
    unfold valEpoch
    rw [h.2.2]
    simp
  · rw [reportedValAcc]
    unfold valEpoch
    rw [h.2.1, h.1]
    simp only [Nat.zero_add]
    rw [List.countP_flatten, ← hcover]

/-- Witness for C8: two singleton validation batches with a stub scorer; the
reported metrics match the formulas at `nValid = 2`. -/
theorem epoch_validation_metrics_witness :
    (([[({ input := 0, label := 0 } : ValSample Nat)],
       [({ input := 1, label := 0 } : ValSample Nat)]].map List.length).sum = 2) ∧
    (reportedValLoss (fun n => if n = 0 then [(1 : ℚ), 0] else [0, 1])
        (fun _ _ => 1)
        [[({ input := 0, label := 0 } : ValSample Nat)],
         [({ input := 1, label := 0 } : ValSample Nat)]] 2 =
      ([[({ input := 0, label := 0 } : ValSample Nat)],
        [({ input := 1, label := 0 } : ValSample Nat)]].map (fun b =>
          (fun (_ : List (List ℚ)) (_ : List Nat) => (1 : ℚ))
            (b.map (fun smp =>
              (fun n => if n = 0 then [(1 : ℚ), 0] else [0, 1]) smp.input))
            (b.map ValSample.label))).sum / ((2 : Nat) : ℚ) ∧
      reportedValAcc (fun n => if n = 0 then [(1 : ℚ), 0] else [0, 1])
        (fun _ _ => 1)
        [[({ input := 0, label := 0 } : ValSample Nat)],
         [({ input := 1, label := 0 } : ValSample Nat)]] =
      100 * (([[({ input := 0, label := 0 } : ValSample Nat)],
          [({ input := 1, label := 0 } : ValSample Nat)]].flatten.countP
            (fun smp => pyArgmax
              ((fun n => if n = 0 then [(1 : ℚ), 0] else [0, 1]) smp.input) ==
                smp.label) : Nat) : ℚ) / (((2 : Nat) : Nat) : ℚ)) :=
  ⟨by decide,
    epoch_validation_metrics (fun n => if n = 0 then [(1 : ℚ), 0] else [0, 1])
      (fun _ _ => 1)
      [[({ input := 0, label := 0 } : ValSample Nat)],
       [({ input := 1, label := 0 } : ValSample Nat)]] 2 (by decide)⟩

/-! ## Python-dict lemmas -/

/-- Reading a dict with at least one entry. -/
theorem dictLookup_cons (p : String × String) (d : List (String × String))
    (k : String) :
    dictLookup (p :: d) k = if p.1 == k then some p.2 else dictLookup d k := by
  by_cases hp : (p.1 == k) = true
  · have hf : List.find? (fun q => q.1 == k) (p :: d) = some p :=
      List.find?_cons_of_pos _ hp
    unfold dictLookup
    rw [hf, if_pos hp]
    rfl
  · have hf : List.find? (fun q => q.1 == k) (p :: d) =
        List.find? (fun q => q.1 == k) d :=
      List.find?_cons_of_neg _ hp
    unfold dictLookup
    rw [hf, if_neg hp]

/-- Reading after an assignment: the assigned key yields the new value, every
other key is untouched. -/
theorem dictLookup_dictInsert (d : List (String × String)) (k v k' : String) :
    dictLookup (dictInsert d k v) k' =
      if k == k' then some v else dictLookup d k' := by
  induction d with
  | nil => simp [dictInsert, dictLookup_cons, dictLookup]
  | cons p d ih =>
    rw [dictInsert]
    by_cases hp : (p.1 == k) = true
    · have hp1 : p.1 = k := by simpa using hp
      rw [if_pos hp, dictLookup_cons, dictLookup_cons]
      by_cases hk : (k == k') = true
      · rw [if_pos hk, if_pos hk]
      · rw [if_neg hk, if_neg hk]
        have hpk : (p.1 == k') = false := by
          rw [hp1]
          simpa using hk
        rw [hpk]
        simp
    · rw [if_neg hp, dictLookup_cons, ih, dictLookup_cons]
      have hp1 : (p.1 == k) = false := by simpa using hp
      by_cases hk : (k == k') = true
      · have hk1 : k = k' := by simpa using hk
        have hpk : (p.1 == k') = false := by rw [← hk1]; exact hp1
        rw [hpk, if_pos hk]
        simp [hk1]
      · rw [if_neg hk, if_neg hk]

/-- An assignment's effect on the key set: the old keys, plus the assigned
key when it is new. -/
theorem dictInsert_keys_mem (d : List (String × String)) (k v a : String) :
    a ∈ (dictInsert d k v).map Prod.fst ↔ a ∈ d.map Prod.fst ∨ a = k := by
  induction d with
  | nil => simp [dictInsert]
  | cons p d ih =>
    by_cases hp : (p.1 == k) = true
    · have hp1 : p.1 = k := by simpa using hp
      simp [dictInsert, hp, hp1]
      tauto
    · simp [dictInsert, hp, ih]
      tauto

/-- Assignment preserves duplicate-freeness of the key column. -/
theorem dictInsert_keys_nodup (d : List (String × String)) (k v : String)
    (hd : (d.map Prod.fst).Nodup) :
    ((dictInsert d k v).map Prod.fst).Nodup := by
  induction d with
  | nil => simp [dictInsert]
  | cons p d ih =>
    rw [List.map_cons, List.nodup_cons] at hd
    by_cases hp : (p.1 == k) = true
    · have hp1 : p.1 = k := by simpa using hp
      rw [dictInsert]
      rw [if_pos hp]
      rw [List.map_cons, List.nodup_cons]
      rw [← hp1]
      exact ⟨hd.1, hd.2⟩
    · rw [dictInsert, if_neg hp]
      rw [List.map_cons, List.nodup_cons]
      constructor
      · intro hmem
        rcases (dictInsert_keys_mem d k v p.1).mp hmem with h | h
        · exact hd.1 h
        · exact hp (by simp [h])
      · exact ih hd.2

/-! ## Inference-loop lemmas -/

/-- Reading `pred_list` after folding the inference body: the prediction of
the last processed sample whose file name's basename is the requested key,
falling back to the pre-existing dict. -/
theorem inferFold_predList_lookup {I : Type} (score : I → List ℚ)
    (cat : Nat → String) :
    ∀ (samples : List (TestSample I)) (s : InferState) (k : String),
      dictLookup (samples.foldl (inferStep score cat) s).predList k =
        ((samples.reverse.find?
            (fun smp => basename smp.fileName == k)).map
          (fun smp => cat (pyArgmax (score smp.input)))).or
          (dictLookup s.predList k) := by
  intro samples
  induction samples with
  | nil =>
    intro s k
    simp
  | cons smp rest ih =>
    intro s k
    have hstep : (smp :: rest).foldl (inferStep score cat) s =
        rest.foldl (inferStep score cat) (inferStep score cat s smp) := rfl
    rw [hstep, ih]
    have hins : (inferStep score cat s smp).predList =
        dictInsert s.predList (basename smp.fileName)
          (cat (pyArgmax (score smp.input))) := rfl
    rw [hins, dictLookup_dictInsert]
    rw [List.reverse_cons, List.find?_append]
    cases hf : rest.reverse.find? (fun t => basename t.fileName == k) with
    | some t => simp [hf]
    | none =>
      simp only [hf, Option.none_or, Option.map_none]
      by_cases hb : (basename smp.fileName == k) = true
      · have hfs : List.find? (fun t => basename t.fileName == k) [smp] =
            some smp := List.find?_cons_of_pos _ hb
        rw [hfs, if_pos hb]
        simp
      · have hfs : List.find? (fun t => basename t.fileName == k) [smp] =
            none := List.find?_cons_of_neg _ hb
        rw [hfs, if_neg hb]

/-- The key column of `pred_list` after folding the inference body: the
pre-existing keys plus the basenames of the processed file names. -/
theorem inferFold_keys_mem {I : Type} (score : I → List ℚ)
    (cat : Nat → String) :
    ∀ (samples : List (TestSample I)) (s : InferState) (f : String),
      f ∈ (samples.foldl (inferStep score cat) s).predList.map Prod.fst ↔
        f ∈ s.predList.map Prod.fst ∨
          f ∈ samples.map (fun smp => basename smp.fileName) := by
  intro samples
  induction samples with
  | nil =>
    intro s f
    simp
  | cons smp rest ih =>
    intro s f
    have hstep : (smp :: rest).foldl (inferStep score cat) s =
        rest.foldl (inferStep score cat) (inferStep score cat s smp) := rfl
    rw [hstep, ih]
    have hins : (inferStep score cat s smp).predList =
        dictInsert s.predList (basename smp.fileName)
          (cat (pyArgmax (score smp.input))) := rfl
    rw [hins]
    rw [dictInsert_keys_mem]
    simp
    tauto

/-- Folding the inference body preserves duplicate-freeness of the key
column of `pred_list`. -/
theorem inferFold_keys_nodup {I : Type} (score : I → List ℚ)
    (cat : Nat → String) :
    ∀ (samples : List (TestSample I)) (s : InferState),
      (s.predList.map Prod.fst).Nodup →
      ((samples.foldl (inferStep score cat) s).predList.map Prod.fst).Nodup := by
  intro samples
  induction samples with
  | nil =>
    intro s hs
    exact hs
  | cons smp rest ih =>
    intro s hs
    have hstep : (smp :: rest).foldl (inferStep score cat) s =
        rest.foldl (inferStep score cat) (inferStep score cat s smp) := rfl
    rw [hstep]
    apply ih
    exact dictInsert_keys_nodup _ _ _ hs

/-! ## Claim C10: predictions are keyed by basename, last write wins -/

/-- Claim C10: the inference pass keys each prediction by
`os.path.basename` of the sample's file path, not by the full file name: a
lookup in the final `pred_list` returns the prediction of the LAST processed
sample whose basename matches (so two test files whose paths differ only in
the directory component collide and the later one silently overwrites the
earlier), and the `file_name` column of the output CSV consists exactly of
the basenames of the test files. -/
theorem infer_keys_basename_last_write_wins {I : Type} (score : I → List ℚ)
    (cat : Nat → String) (samples : List (TestSample I)) (k : String) :
    dictLookup (runInfer score cat samples).predList k =
      (samples.reverse.find? (fun smp => basename smp.fileName == k)).map
        (fun smp => cat (pyArgmax (score smp.input))) ∧
    ((runInfer score cat samples).predList.map Prod.fst).Nodup ∧
    (∀ f, f ∈ (runInfer score cat samples).predList.map Prod.fst ↔
      f ∈ samples.map (fun smp => basename smp.fileName)) := by
  refine ⟨?_, ?_, ?_⟩
  · have h := inferFold_predList_lookup score cat samples ⟨0, 0, []⟩ k
    unfold runInfer
    rw [h]
    simp [dictLookup]
  · exact inferFold_keys_nodup score cat samples ⟨0, 0, []⟩ (by simp)
  · intro f
    have h := inferFold_keys_mem score cat samples ⟨0, 0, []⟩ f
    unfold runInfer
    rw [h]
    simp

/-! ## Claim C4 (corrected): rows of the predictions CSV -/

/-- Counterexample to C4 as stated: a test split with the two distinct file
names `a/x.jpg` and `b/x.jpg` (K = 2) produces a CSV with one data row, not
two, and the file name `a/x.jpg` never appears in the `file_name` column. -/
theorem csv_duplicate_basename_collision_cex :
    (predictionsCSV (fun _ : Unit => [(1 : ℚ), 0, 0]) cat_to_index
        [⟨(), "a/x.jpg", 0⟩, ⟨(), "b/x.jpg", 0⟩]).length = 1 ∧
    "a/x.jpg" ∉ (predictionsCSV (fun _ : Unit => [(1 : ℚ), 0, 0]) cat_to_index
        [⟨(), "a/x.jpg", 0⟩, ⟨(), "b/x.jpg", 0⟩]).map Prod.fst ∧
    ¬ ((predictionsCSV (fun _ : Unit => [(1 : ℚ), 0, 0]) cat_to_index
        [⟨(), "a/x.jpg", 0⟩, ⟨(), "b/x.jpg", 0⟩]).length = 2) := by
  decide

/-- Claim C4 as amended: the predictions CSV has exactly one data row per
DISTINCT BASENAME of the test split's file names, and every such basename
appears in the `file_name` column exactly once. -/
theorem csv_one_row_per_distinct_basename {I : Type} (score : I → List ℚ)
    (cat : Nat → String) (samples : List (TestSample I)) :
    ((predictionsCSV score cat samples).map Prod.fst).Nodup ∧
    (∀ f, f ∈ (predictionsCSV score cat samples).map Prod.fst ↔
      f ∈ samples.map (fun smp => basename smp.fileName)) ∧
    (predictionsCSV score cat samples).length =
      (samples.map (fun smp => basename smp.fileName)).toFinset.card := by
  have hnd : ((predictionsCSV score cat samples).map Prod.fst).Nodup :=
    inferFold_keys_nodup score cat samples ⟨0, 0, []⟩ (by simp)
  have hmem : ∀ f, f ∈ (predictionsCSV score cat samples).map Prod.fst ↔
      f ∈ samples.map (fun smp => basename smp.fileName) := by
    intro f
    have h := inferFold_keys_mem score cat samples ⟨0, 0, []⟩ f
    unfold predictionsCSV runInfer
    rw [h]
    simp
  refine ⟨hnd, hmem, ?_⟩
  have h1 : (predictionsCSV score cat samples).length =
      ((predictionsCSV score cat samples).map Prod.fst).length := by
    rw [List.length_map]
  rw [h1, ← List.toFinset_card_of_nodup hnd]
  congr 1
  ext a
  simp only [List.mem_toFinset]
  exact hmem a

/-! ## Claim C9 (corrected): what gets recorded per test sample -/

/-- Counterexample to C9 as stated: for a test sample with file name
`dir/flower.jpg`, no prediction is recorded under the file name returned from
the test index; the record is keyed by the basename `flower.jpg`. -/
theorem record_keyed_by_basename_cex :
    dictLookup (runInfer (fun _ : Unit => [(1 : ℚ), 0, 0]) cat_to_index
        [⟨(), "dir/flower.jpg", 0⟩]).predList "dir/flower.jpg" = none ∧
    dictLookup (runInfer (fun _ : Unit => [(1 : ℚ), 0, 0]) cat_to_index
        [⟨(), "dir/flower.jpg", 0⟩]).predList "flower.jpg" =
      some "Pink Primrose" := by
  decide

/-- Claim C9 as amended: for every test sample, the inference pass maps the
arg-max predicted class id back to a class name through `cat_to_index` (the
inverse of the class mapping) and records the pair
(BASENAME of file_name, predicted class name); the recorded pair survives to
the final dict whenever no later sample shares the basename. -/
theorem infer_records_basename_mapped_class {I : Type} (score : I → List ℚ)
    (cat : Nat → String) (pre post : List (TestSample I)) (smp : TestSample I)
    (hlast : ∀ t ∈ post, basename t.fileName ≠ basename smp.fileName) :
    dictLookup (runInfer score cat (pre ++ smp :: post)).predList
        (basename smp.fileName) = some (cat (pyArgmax (score smp.input))) := by
  have h := inferFold_predList_lookup score cat (pre ++ smp :: post) ⟨0, 0, []⟩
    (basename smp.fileName)
  unfold runInfer
  rw [h]
  have hrev : (pre ++ smp :: post).reverse =
      post.reverse ++ smp :: pre.reverse := by
    simp
  rw [hrev, List.find?_append]
  have hnone : post.reverse.find?
      (fun t => basename t.fileName == basename smp.fileName) = none := by
    apply List.find?_eq_none.mpr
    intro t ht
    simp only [beq_iff_eq]
    exact hlast t (List.mem_reverse.mp ht)
  rw [hnone]
  have hself : List.find?
      (fun t => basename t.fileName == basename smp.fileName)
      (smp :: pre.reverse) = some smp :=
    List.find?_cons_of_pos _ (by simp)
  rw [hself]
  simp [dictLookup]

/-- Witness for the amended C9: a concrete two-sample test pass records the
pair (`b.jpg`, class name of the arg-max id) for the sample `a/b.jpg`. -/
theorem infer_records_basename_mapped_class_witness :
    (∀ t ∈ [({ input := (), fileName := "c/d.jpg", label := 0 } : TestSample Unit)],
      basename t.fileName ≠ basename "a/b.jpg") ∧
    dictLookup (runInfer (fun _ : Unit => [(0 : ℚ), 1, 0]) cat_to_index
        ([] ++ ({ input := (), fileName := "a/b.jpg", label := 1 } : TestSample Unit) ::
          [({ input := (), fileName := "c/d.jpg", label := 0 } : TestSample Unit)])).predList
        (basename "a/b.jpg") =
      some (cat_to_index (pyArgmax ((fun _ : Unit => [(0 : ℚ), 1, 0]) ()))) :=
  ⟨by decide,
    infer_records_basename_mapped_class (fun _ : Unit => [(0 : ℚ), 1, 0])
      cat_to_index [] [{ input := (), fileName := "c/d.jpg", label := 0 }]
      { input := (), fileName := "a/b.jpg", label := 1 } (by decide)⟩
